import Mathlib

set_option maxRecDepth 8000

/-! Shallow embedding of `SurveyProcessor.py` (header matching, row lookup,
response compilation, sanitizing and ordinal encoding).  Strings are modelled
as Lean `String`s; helpers work on the underlying `List Char`.  Python's
`str.lower` / `str.strip` are modelled for the ASCII range, which covers all
data the program manipulates.  Fallible spreadsheet indexing is modelled with
`Except Unit` (an `IndexError` becomes `.error ()`). -/

/-- Whitespace characters recognised by Python's `str.strip` and `\s`
(ASCII range). -/
def isWs (c : Char) : Bool :=
  (c == ' ') || (c == '\t') || (c == '\n') || (c == '\r') || (c == '\x0b') || (c == '\x0c')

/-- Python `s.lower()` (ASCII). -/
def pylower (s : String) : String := ⟨s.data.map Char.toLower⟩

/-- Python `s.strip()` on the character list. -/
def stripData (l : List Char) : List Char :=
  ((l.dropWhile isWs).reverse.dropWhile isWs).reverse

/-- Python `s.strip()`. -/
def pystrip (s : String) : String := ⟨stripData s.data⟩

/-- Does `needle` occur as a prefix of `hay`?  (Python `startswith`.) -/
def leadsWith : List Char → List Char → Bool
  | [], _ => true
  | _ :: _, [] => false
  | a :: as, b :: bs => (a == b) && leadsWith as bs

/-- Python substring containment `needle in hay` on character lists. -/
def strContainsData (needle : List Char) : List Char → Bool
  | [] => leadsWith needle []
  | c :: t => leadsWith needle (c :: t) || strContainsData needle t

/-- Python substring containment `needle in hay` on strings. -/
def strContains (needle hay : String) : Bool :=
  strContainsData needle.data hay.data

/-- Collapse runs of whitespace to a single space, tracking whether the
previous character was whitespace (models `re.sub(r"\s+", " ", s)`). -/
def collapseAux : Bool → List Char → List Char
  | _, [] => []
  | prevWs, c :: t =>
    if isWs c then
      if prevWs then collapseAux true t else ' ' :: collapseAux true t
    else c :: collapseAux false t

/-- Normalisation used by `find_best_column`:
`re.sub(r"\s+", " ", keyword.lower().replace("?", "").strip())`. -/
def pynormD (s : String) : List Char :=
  collapseAux false (stripData ((s.data.map Char.toLower).filter (fun c => !(c == '?'))))

/-- Length of the common run of equal characters of `a`/`b` starting at
`ai`/`bi`, confined to the windows `[·, ahi)` and `[·, bhi)`.  The first
argument is fuel (`ahi - ai` always suffices). -/
def runLen (a b : List Char) : Nat → Nat → Nat → Nat → Nat → Nat
  | 0, _, _, _, _ => 0
  | fuel + 1, ai, bi, ahi, bhi =>
    if ai < ahi ∧ bi < bhi ∧ a[ai]?.isSome ∧ a[ai]? = b[bi]? then
      runLen a b fuel (ai + 1) (bi + 1) ahi bhi + 1
    else 0

/-- All window index pairs, `a`-index major, both ascending. -/
def indexPairs (alo ahi blo bhi : Nat) : List (Nat × Nat) :=
  ((List.range' alo (ahi - alo)).map
    (fun i => (List.range' blo (bhi - blo)).map (fun j => (i, j)))).flatten

/-- One step of the longest-matching-block scan: a candidate block is the run
starting at the pair, and a strictly longer run replaces the incumbent (so the
earliest start in `a`, then in `b`, wins ties), as in
`difflib.SequenceMatcher.find_longest_match` with no junk. -/
def lmStep (a b : List Char) (ahi bhi : Nat) (acc : Nat × Nat × Nat) (ij : Nat × Nat) :
    Nat × Nat × Nat :=
  let k := runLen a b (ahi - ij.1) ij.1 ij.2 ahi bhi
  if acc.2.2 < k then (ij.1, ij.2, k) else acc

/-- Longest matching block of `a`/`b` inside the given windows
(start in `a`, start in `b`, size). -/
def longestMatch (a b : List Char) (alo ahi blo bhi : Nat) : Nat × Nat × Nat :=
  (indexPairs alo ahi blo bhi).foldl (lmStep a b ahi bhi) (alo, blo, 0)

/-- Total size of all matching blocks (the `M` of `SequenceMatcher.ratioVal`),
recursing on both sides of the longest block; the fuel bounds the recursion
depth (`a.length + 1` always suffices). -/
def matchTotal (a b : List Char) : Nat → Nat → Nat → Nat → Nat → Nat
  | 0, _, _, _, _ => 0
  | fuel + 1, alo, ahi, blo, bhi =>
    let r := longestMatch a b alo ahi blo bhi
    if r.2.2 = 0 then 0
    else
      matchTotal a b fuel alo r.1 blo r.2.1 + r.2.2 +
        matchTotal a b fuel (r.1 + r.2.2) ahi (r.2.1 + r.2.2) bhi

/-- `SequenceMatcher(None, a, b).ratioVal()`: `2M / (len(a) + len(b))`, and `1`
when both are empty (autojunk never fires on the short strings handled here).
Built with `mkRat` so that the value is an exact rational. -/
def ratioVal (a b : List Char) : ℚ :=
  if a.length + b.length = 0 then mkRat 1 1
  else mkRat (2 * (matchTotal a b (a.length + 1) 0 a.length 0 b.length : Int))
    (a.length + b.length)

/-- Similarity score of the (already normalised) keyword against one header,
as computed in the second pass of `find_best_column`. -/
def rscore (nq : List Char) (h : String) : ℚ := ratioVal nq (pynormD h)

/-- First pass of `find_best_column`: scan the headers in order and return the
1-based position of the first whose normalisation contains the normalised
keyword. -/
def substrPass (nq : List Char) : List String → Nat → Option Int
  | [], _ => none
  | h :: t, i =>
    if strContainsData nq (pynormD h) then some (Int.ofNat i + 1)
    else substrPass nq t (i + 1)

/-- Second pass of `find_best_column`: track the best score and its 0-based
index, updating only on strictly greater scores (`score > best_score`),
starting from `(0.0, -1)`. -/
def fuzzyPass (nq : List Char) : List String → Nat → ℚ → Int → ℚ × Int
  | [], _, b, x => (b, x)
  | h :: t, i, b, x =>
    if b < rscore nq h then fuzzyPass nq t (i + 1) (rscore nq h) (Int.ofNat i)
    else fuzzyPass nq t (i + 1) b x

/-- `find_best_column(keyword, headers, fuzzy_cutoff)`: substring match first
(1-based, first hit wins), otherwise the fuzzy pass, returning
`best_idx + 1` when `best_score >= fuzzy_cutoff` and `-1` otherwise. -/
def find_best_column (keyword : String) (headers : List String) (fuzzy_cutoff : ℚ) : Int :=
  match substrPass (pynormD keyword) headers 0 with
  | some c0 => c0
  | none =>
    let p := fuzzyPass (pynormD keyword) headers 0 0 (-1)
    if fuzzy_cutoff ≤ p.1 then p.2 + 1 else -1

/-- Maximum of a list of rationals, floored at 0 (the second pass starts from
`best_score = 0.0`). -/
def qmax : List ℚ → ℚ
  | [] => 0
  | q :: t => max q (qmax t)

/-- Maximum similarity ratioVal of the normalised keyword over a header list, the
quantity named by the specification (0 for an empty list). -/
def maxRatioSpec (nq : List Char) (H : List String) : ℚ :=
  qmax (H.map (rscore nq))

deriving instance DecidableEq for Except

/-- Snapshot of the spreadsheet data the processor works on, mirroring the
module-level globals `pre_headers`, `post_headers`, `pre_values`,
`post_values` and `questions` set by `main_function`. -/
structure Env where
  pre_headers : List String
  post_headers : List String
  pre_values : List (List String)
  post_values : List (List String)
  questions : List String

/-- Python list indexing `l[i]` on an `Int` index: negative indices wrap once
from the end, and an out-of-range access is an `IndexError` (`.error ()`). -/
def pyIndex {α : Type} (l : List α) (i : Int) : Except Unit α :=
  let j : Int := if i < 0 then i + l.length else i
  if h : 0 ≤ j ∧ j.toNat < l.length then .ok (l.get ⟨j.toNat, h.2⟩) else .error ()

/-- Python `list.index(x)`: 0-based position of the first occurrence
(`l.length` when absent, a case the program never reaches). -/
def pyListIndex (x : String) : List String → Nat
  | [] => 0
  | y :: t => if y = x then 0 else pyListIndex x t + 1

/-- Python `x in l` membership test on a string list. -/
def pyMem (x : String) : List String → Bool
  | [] => false
  | y :: t => (y = x) || pyMem x t

/-- Shared loop of `find_pre_column` / `find_post_column`: 1-based position of
the first header containing the keyword verbatim (no normalisation), `-1`
when none does. -/
def colScan (keyword : String) : List String → Nat → Int
  | [], _ => -1
  | h :: t, i =>
    if strContains keyword h then Int.ofNat i + 1 else colScan keyword t (i + 1)

/-- `find_pre_column(keyword)`. -/
def find_pre_column (env : Env) (keyword : String) : Int :=
  colScan keyword env.pre_headers 0

/-- `find_post_column(keyword)`. -/
def find_post_column (env : Env) (keyword : String) : Int :=
  colScan keyword env.post_headers 0

/-- The list comprehension in `find_pre_row_by_id` / `find_post_row_by_id`:
`[row[col - 1] if len(row) >= col else "" for row in values]`. -/
def columnValues (values : List (List String)) (col : Int) : List String :=
  values.map (fun row => if col ≤ (row.length : Int) then row.getD (col.toNat - 1) "" else "")

/-- The scan in `find_pre_row_by_id` / `find_post_row_by_id`: 1-based position
of the first value equal (case-insensitively) to the identifier, `-1` when
none is. -/
def rowScan (idlow : String) : List String → Nat → Int
  | [], _ => -1
  | v :: t, i => if pylower v = idlow then Int.ofNat i + 1 else rowScan idlow t (i + 1)

/-- `find_pre_row_by_id(identifier)`. -/
def find_pre_row_by_id (env : Env) (identifier : String) : Int :=
  let col := find_pre_column env "Personal Identifier:"
  if col = -1 then -1
  else rowScan (pylower identifier) (columnValues env.pre_values col) 0

/-- `find_post_row_by_id(identifier)`. -/
def find_post_row_by_id (env : Env) (identifier : String) : Int :=
  let col := find_post_column env "Personal Identifier:"
  if col = -1 then -1
  else rowScan (pylower identifier) (columnValues env.post_values col) 0

/-- `compile_pre_response(row, question)`: verbatim column lookup first, then
fuzzy lookup at cutoff `0.35`; `"ERROR"` when the row or column is `-1`;
otherwise the raw (possibly faulting) double index `pre_values[row-1][col-1]`. -/
def compile_pre_response (env : Env) (row : Int) (question : String) : Except Unit String :=
  let col0 := find_pre_column env question
  let col := if col0 = -1 then find_best_column question env.pre_headers (mkRat 7 20) else col0
  if col = -1 ∨ row = -1 then .ok "ERROR"
  else do
    let r ← pyIndex env.pre_values (row - 1)
    pyIndex r (col - 1)

/-- `compile_post_response(row, question)`: as `compile_pre_response` but on
the post-survey tables. -/
def compile_post_response (env : Env) (row : Int) (question : String) : Except Unit String :=
  let col0 := find_post_column env question
  let col := if col0 = -1 then find_best_column question env.post_headers (mkRat 7 20) else col0
  if col = -1 ∨ row = -1 then .ok "ERROR"
  else do
    let r ← pyIndex env.post_values (row - 1)
    pyIndex r (col - 1)

/-- Body of the loop in `filter_responses`: a response containing both `:`
and `/` (timestamp heuristic) becomes a single space. -/
def filterResponse (r : String) : String :=
  if r.data.contains ':' && r.data.contains '/' then " " else r

/-- `filter_responses(responses)`. -/
def filter_responses : List String → List String
  | [] => []
  | r :: t => filterResponse r :: filter_responses t

/-- The loop of `compile_responses`: `post_triggered` flips (and stays set)
once `questions.index(q) >= 36` for the current question, selecting the post-
or pre-survey compiler; a Python exception aborts the whole loop. -/
def compileLoop (env : Env) (pre_row post_row : Int) : List String → Bool → Except Unit (List String)
  | [], _ => .ok []
  | q :: rest, trig =>
    let trig' := trig || decide (36 ≤ pyListIndex q env.questions)
    match (if trig' then compile_post_response env post_row q
           else compile_pre_response env pre_row q) with
    | .error e => .error e
    | .ok v =>
      match compileLoop env pre_row post_row rest trig' with
      | .error e => .error e
      | .ok t => .ok (v :: t)

/-- `compile_responses(identifier)`: row lookups, the boundary loop, then
`filter_responses` on the result. -/
def compile_responses (env : Env) (identifier : String) : Except Unit (List String) :=
  match compileLoop env (find_pre_row_by_id env identifier) (find_post_row_by_id env identifier)
      env.questions false with
  | .ok out => .ok (filter_responses out)
  | .error e => .error e

/-- A value returned by the encoder: a Python `int` or `str`. -/
inductive PyVal where
  | int : Int → PyVal
  | str : String → PyVal
deriving DecidableEq

/-- The closed vocabulary of `response_to_number_helper`: the big `match`
statement, transcribed literally (keys are already lower-case in the source). -/
def vocabLookup : String → Option Int
  | "pgy1" => some 0
  | "pgy2" => some 1
  | "pgy3" => some 2
  | "20-25" => some 0
  | "26-32" => some 1
  | "33-40" => some 2
  | "41+" => some 3
  | "single/non partnered" => some 0
  | "married/partnered" => some 1
  | "man" => some 0
  | "woman" => some 1
  | "transgender" => some 2
  | "non-binary, gender non-conforming, or genderqueer" => some 3
  | "preferred response not listed" => some 4
  | "allergy & immunology" => some 0
  | "cardiology" => some 1
  | "endocrinology" => some 2
  | "geriatrics" => some 3
  | "gi" => some 4
  | "heme/onc" => some 5
  | "hospital medicine" => some 6
  | "infectious disease" => some 7
  | "nephrology" => some 8
  | "palliative care" => some 9
  | "pulm/crit" => some 10
  | "primary care" => some 11
  | "rheumatology" => some 12
  | "i don\x27t plan to practice" => some 13
  | "undecided" => some 14
  | "ccu" => some 0
  | "ed" => some 1
  | "elective" => some 2
  | "elmhurst" => some 3
  | "micu" => some 4
  | "nights" => some 5
  | "sinai floors" => some 6
  | "senior role" => some 7
  | "va floors" => some 8
  | "va icu" => some 9
  | "no" => some 0
  | "yes" => some 1
  | "strongly disagree" => some 0
  | "disagree" => some 1
  | "neutral" => some 2
  | "agree" => some 3
  | "strongly agree" => some 4
  | "not at all" => some 0
  | "somewhat true" => some 1
  | "moderately true" => some 2
  | "very true" => some 3
  | "completely true" => some 4
  | "very little" => some 1
  | "moderately" => some 2
  | "a lot" => some 3
  | "extremely" => some 4
  | "i feel completely burned out" => some 0
  | "my symptoms of burnout won\x27t go away. i think about work frustrations a lot." => some 1
  | "i am definitely burning out and have more than one symptom of burnout, e.g. emotional exhaustion and depersonalization." => some 2
  | "i am very stressed and may be suffering some burnout symptoms, such as emotional exhaustion or depersonalization." => some 3
  | "i am under stress, and don\x27t always have as much energy as i did, but i don\x27t feel burned out." => some 4
  | "i enjoy my work. i have no symptoms of burnout." => some 5
  | "not of interest to me" => some 0
  | "too busy with clinical duties" => some 1
  | "too busy with admin" => some 2
  | "too busy with other stuff" => some 3
  | "i like to keep my lunch hour free" => some 4
  | "n/a--i have attended all of them" => some 5
  | "narrative medicine faculty from columbia university (current facilitators)" => some 0
  | "mount sinai faculty with experience/interest in narrative medicine" => some 1
  | "mount sinai residents with experience/interest in narrative medicine" => some 2
  | "only pgy1\x27s" => some 0
  | "pgy1\x27s, pgy2\x27s, and pgy3\x27s" => some 1
  | "only pgy1s" => some 0
  | "pgy1s, pgy2s, and pgy3s" => some 1
  | "close reading and discussion" => some 0
  | "writing exercise and discussion" => some 1
  | "n/a--have not attended" => some 2
  | "n/a - did not attend" => some 5
  | _ => none

/-- `response_to_number_helper(response, responses)`: `None` becomes `""`;
otherwise the lower-cased, stripped text is looked up in the vocabulary, blank
text becomes `""`, a text occurring among the (lower-cased) responses is
echoed verbatim when the question at its first occurrence's index contains
"write one word" (the `questions[idx]` access can fault), and anything else is
the sentinel `"ERROR"`. -/
def response_to_number_helper (env : Env) (response : Option String) (responses : List String) :
    Except Unit PyVal :=
  match response with
  | none => .ok (.str "")
  | some resp =>
    let r := pystrip (pylower resp)
    match vocabLookup r with
    | some n => .ok (.int n)
    | none =>
      if r = "" ∨ r = " " then .ok (.str "")
      else if pyMem r (responses.map pylower) then
        match pyIndex env.questions (Int.ofNat (pyListIndex r (responses.map pylower))) with
        | .ok q =>
          if strContains "write one word" (pylower q) then .ok (.str r)
          else .ok (.str "ERROR")
        | .error e => .error e
      else .ok (.str "ERROR")

/-- The list comprehension `response_to_number(responses)`, each response
encoded with visibility into the full list. -/
def encodeList (env : Env) (all : List String) : List String → Except Unit (List PyVal)
  | [] => .ok []
  | r :: t =>
    match response_to_number_helper env (some r) all with
    | .error e => .error e
    | .ok v =>
      match encodeList env all t with
      | .error e => .error e
      | .ok vs => .ok (v :: vs)

/-- `response_to_number(responses)`. -/
def response_to_number (env : Env) (responses : List String) : Except Unit (List PyVal) :=
  encodeList env responses responses

/-- Dataset whose only pre-survey row is shorter than the column resolved for
question `"Q1"`. -/
def envShortRow : Env :=
  { pre_headers := ["Personal Identifier:", "Q1"]
    post_headers := []
    pre_values := [["ab"]]
    post_values := []
    questions := ["Q1"] }

/-- Dataset whose single (pre-boundary) question contains "write one word",
and whose pre-survey has no data rows at all. -/
def envWriteOneWord : Env :=
  { pre_headers := ["Personal Identifier:", "Please write one word"]
    post_headers := []
    pre_values := []
    post_values := []
    questions := ["Please write one word"] }

/-- Empty question list: the encoder's free-text fallback indexes past it. -/
def envNoQuestions : Env :=
  { pre_headers := [], post_headers := [], pre_values := [], post_values := [], questions := [] }

/-- Two responses share the text "x"; only the second position's question is a
"write one word" question. -/
def envTwoX : Env :=
  { pre_headers := [], post_headers := [], pre_values := [], post_values := []
    questions := ["q", "Write one word"] }

/-- A single free-text "write one word" question, for the specification's
"resilience" scenario. -/
def envResilience : Env :=
  { pre_headers := [], post_headers := [], pre_values := [], post_values := []
    questions := ["Please write one word:"] }

/-- One pre-boundary question answered "ans" by participant "ab". -/
def envOneQuestion : Env :=
  { pre_headers := ["Personal Identifier:", "A"]
    post_headers := []
    pre_values := [["ab", "ans"]]
    post_values := []
    questions := ["A"] }

/-- One pre-boundary question (not a "write one word" one) and a pre-survey
with no data rows. -/
def envOneQuestionNoRow : Env :=
  { pre_headers := ["Personal Identifier:", "Qx"]
    post_headers := []
    pre_values := []
    post_values := []
    questions := ["Qx"] }

/-- 37 questions where the question at the boundary position 36 repeats the
first question, so `questions.index(q)` never reaches 36; pre- and post-survey
rows answer every question differently (`Pn` vs `Qn`). -/
def envDup : Env :=
  { pre_headers := "Personal Identifier:" :: (List.range 36).map (fun n => "q" ++ toString n)
    post_headers := "Personal Identifier:" :: (List.range 36).map (fun n => "q" ++ toString n)
    pre_values := ["ab" :: (List.range 36).map (fun n => "P" ++ toString n)]
    post_values := ["ab" :: (List.range 36).map (fun n => "Q" ++ toString n)]
    questions := ((List.range 36).map (fun n => "q" ++ toString n)) ++ ["q0"] }

/-! Helper lemmas. -/

/-- A list produced by `dropWhile p` never starts with an element satisfying
`p`. -/
lemma dropWhile_head_false {p : Char → Bool} :
    ∀ (l : List Char) (x : Char) (xs : List Char), l.dropWhile p = x :: xs → p x = false := by
  intro l
  induction l with
  | nil => intro x xs h; simp [List.dropWhile] at h
  | cons c t ih =>
    intro x xs h
    by_cases hc : p c
    · rw [List.dropWhile_cons_of_pos hc] at h
      exact ih x xs h
    · rw [List.dropWhile_cons_of_neg hc] at h
      cases h
      simpa using hc

/-- Python's `strip` never returns a single space. -/
lemma pystrip_ne_space (s : String) : pystrip s ≠ " " := by
  intro h
  have hd : stripData s.data = [' '] := congrArg String.data h
  unfold stripData at hd
  have h2 : ((s.data.dropWhile isWs).reverse.dropWhile isWs) = [' '] := by
    have := congrArg List.reverse hd
    simpa using this
  have := dropWhile_head_false _ _ _ h2
  simp [isWs] at this

/-- `pyIndex` on a natural index inside the list succeeds with the element. -/
lemma pyIndex_ofNat_ok {α : Type} (l : List α) (i : Nat) (hi : i < l.length) :
    pyIndex l (Int.ofNat i) = .ok (l.get ⟨i, hi⟩) := by
  have h0 : ¬ ((Int.ofNat i) < 0) := by
    simp only [Int.ofNat_eq_coe]
    omega
  simp only [pyIndex, if_neg h0]
  have hcond : 0 ≤ (Int.ofNat i) ∧ (Int.ofNat i).toNat < l.length := by
    refine ⟨by simp only [Int.ofNat_eq_coe]; omega, ?_⟩
    simpa using hi
  rw [dif_pos hcond]
  rfl

/-- `filter_responses` is the element-wise map of `filterResponse`. -/
lemma filter_responses_eq_map (xs : List String) :
    filter_responses xs = xs.map filterResponse := by
  induction xs with
  | nil => rfl
  | cons r t ih => simp [filter_responses, ih]

/-- One sanitising step is idempotent. -/
lemma filterResponse_idem (r : String) : filterResponse (filterResponse r) = filterResponse r := by
  unfold filterResponse
  by_cases h : (r.data.contains ':' && r.data.contains '/') = true
  · rw [if_pos h]
    norm_num
  · rw [if_neg h, if_neg h]

/-- The first-pass scan localised: if the first normalised-substring hit in
`l` is at 0-based position `j`, the scan starting at offset `i` yields
`i + j + 1`. -/
lemma substrPass_at (nq : List Char) :
    ∀ (l : List String) (i j : Nat) (hj : j < l.length),
      strContainsData nq (pynormD (l.get ⟨j, hj⟩)) = true →
      (∀ k (hk : k < l.length), k < j → strContainsData nq (pynormD (l.get ⟨k, hk⟩)) = false) →
      substrPass nq l i = some (Int.ofNat (i + j) + 1) := by
  intro l
  induction l with
  | nil => intro i j hj; simp at hj
  | cons h t ih =>
    intro i j hj hmatch hfirst
    cases j with
    | zero =>
      simp only [List.get] at hmatch
      simp [substrPass, hmatch]
    | succ j' =>
      have hh : strContainsData nq (pynormD h) = false := by
        have := hfirst 0 (by simp) (Nat.succ_pos j')
        simpa [List.get] using this
      have hj' : j' < t.length := by
        simp only [List.length_cons] at hj
        omega
      have hm' : strContainsData nq (pynormD (t.get ⟨j', hj'⟩)) = true := by
        simpa [List.get] using hmatch
      have hf' : ∀ k (hk : k < t.length), k < j' →
          strContainsData nq (pynormD (t.get ⟨k, hk⟩)) = false := by
        intro k hk hkj
        have := hfirst (k + 1) (by simp only [List.length_cons]; omega) (by omega)
        simpa [List.get] using this
      have hrec := ih (i + 1) j' hj' hm' hf'
      simp only [substrPass, hh, if_neg]
      rw [hrec, show i + 1 + j' = i + (j' + 1) from by omega]
      simp

/-- The first pass finds nothing when no normalised header contains the
normalised keyword. -/
lemma substrPass_none (nq : List Char) :
    ∀ (l : List String) (i : Nat),
      (∀ h ∈ l, strContainsData nq (pynormD h) = false) → substrPass nq l i = none := by
  intro l
  induction l with
  | nil => intro i _; rfl
  | cons h t ih =>
    intro i hall
    have hh := hall h (by simp)
    simp only [substrPass, hh]
    exact ih (i + 1) (fun g hg => hall g (by simp [hg]))

lemma qmax_nonneg (l : List ℚ) : 0 ≤ qmax l := by
  induction l with
  | nil => simp [qmax]
  | cons q t ih => simp only [qmax]; exact le_max_of_le_right ih

lemma le_qmax_of_mem {a : ℚ} {l : List ℚ} (h : a ∈ l) : a ≤ qmax l := by
  induction l with
  | nil => simp at h
  | cons q t ih =>
    rcases List.mem_cons.mp h with h | h
    · simp [qmax, h]
    · exact le_max_of_le_right (ih h)

lemma qmax_le {l : List ℚ} {c : ℚ} (hall : ∀ a ∈ l, a ≤ c) (hc : 0 ≤ c) : qmax l ≤ c := by
  induction l with
  | nil => simpa [qmax]
  | cons q t ih =>
    simp only [qmax, max_le_iff]
    exact ⟨hall q (by simp), ih (fun a ha => hall a (by simp [ha]))⟩

lemma exists_ge_qmax_of_pos {l : List ℚ} (h : 0 < qmax l) : ∃ a ∈ l, qmax l ≤ a := by
  induction l with
  | nil => simp [qmax] at h
  | cons q t ih =>
    by_cases hq : qmax t ≤ q
    · exact ⟨q, by simp, by simp [qmax, hq]⟩
    · have hmax : qmax (q :: t) = qmax t := by
        simp only [qmax]
        exact max_eq_right (le_of_not_le hq)
      rw [hmax] at h ⊢
      obtain ⟨a, ha, hle⟩ := ih h
      exact ⟨a, by simp [ha], hle⟩

/-- Every similarity ratioVal is nonnegative. -/
lemma rscore_nonneg (nq : List Char) (h : String) : 0 ≤ rscore nq h := by
  unfold rscore ratioVal
  split
  · norm_num
  · rw [Rat.mkRat_eq_div]
    positivity

/-- If no element beats the incumbent score, the second pass returns the
accumulator unchanged. -/
lemma fuzzyPass_keep (nq : List Char) :
    ∀ (l : List String) (i : Nat) (b : ℚ) (x : Int),
      (∀ h ∈ l, rscore nq h ≤ b) → fuzzyPass nq l i b x = (b, x) := by
  intro l
  induction l with
  | nil => intro i b x _; rfl
  | cons h t ih =>
    intro i b x hall
    have hh : ¬ b < rscore nq h := not_lt.mpr (hall h (by simp))
    simp only [fuzzyPass, if_neg hh]
    exact ih (i + 1) b x (fun g hg => hall g (by simp [hg]))

/-- The final best score of the second pass is the maximum of the incumbent
and all remaining scores. -/
lemma fuzzyPass_best (nq : List Char) :
    ∀ (l : List String) (i : Nat) (b : ℚ) (x : Int), 0 ≤ b →
      (fuzzyPass nq l i b x).1 = max b (qmax (l.map (rscore nq))) := by
  intro l
  induction l with
  | nil =>
    intro i b x hb
    simp only [fuzzyPass, List.map_nil, qmax]
    exact (max_eq_left hb).symm
  | cons h t ih =>
    intro i b x hb
    by_cases hbs : b < rscore nq h
    · simp only [fuzzyPass, if_pos hbs, List.map_cons, qmax]
      rw [ih (i + 1) (rscore nq h) (Int.ofNat i) (rscore_nonneg nq h)]
      rw [max_comm b (max (rscore nq h) (qmax (t.map (rscore nq))))]
      exact (max_eq_left (le_trans hbs.le (le_max_left _ _))).symm
    · simp only [fuzzyPass, if_neg hbs, List.map_cons, qmax]
      rw [ih (i + 1) b x hb, max_left_comm]
      have : max (rscore nq h) (max b (qmax (t.map (rscore nq)))) =
          max b (qmax (t.map (rscore nq))) :=
        max_eq_right (le_trans (not_lt.mp hbs) (le_max_left _ _))
      rw [this]

/-- When some remaining score strictly beats the incumbent, the second pass
returns the offset position of the first score equal to the final maximum
(strict improvement updates realise the first-maximiser tie-break). -/
lemma fuzzyPass_argmax (nq : List Char) :
    ∀ (l : List String) (i : Nat) (b : ℚ) (x : Int), 0 ≤ b →
      (∃ h ∈ l, b < rscore nq h) →
      (fuzzyPass nq l i b x).2 =
        Int.ofNat (i + l.findIdx (fun h => decide (rscore nq h = max b (qmax (l.map (rscore nq)))))) := by
  intro l
  induction l with
  | nil => intro i b x _ hex; simp at hex
  | cons h t ih =>
    intro i b x hb hex
    have hq0 : (0:ℚ) ≤ qmax (t.map (rscore nq)) := qmax_nonneg _
    by_cases hbs : b < rscore nq h
    · have hV : max b (qmax ((h :: t).map (rscore nq))) =
          max (rscore nq h) (qmax (t.map (rscore nq))) := by
        simp only [List.map_cons, qmax]
        rw [max_comm b (max (rscore nq h) (qmax (t.map (rscore nq))))]
        exact max_eq_left (le_trans hbs.le (le_max_left _ _))
      by_cases hex2 : ∃ g ∈ t, rscore nq h < rscore nq g
      · obtain ⟨g, hg, hgt⟩ := hex2
        have hqt : rscore nq h < qmax (t.map (rscore nq)) :=
          lt_of_lt_of_le hgt (le_qmax_of_mem (List.mem_map_of_mem _ hg))
        have hV2 : max (rscore nq h) (qmax (t.map (rscore nq))) = qmax (t.map (rscore nq)) :=
          max_eq_right hqt.le
        simp only [fuzzyPass, if_pos hbs]
        rw [ih (i + 1) (rscore nq h) (Int.ofNat i) (rscore_nonneg nq h) ⟨g, hg, hgt⟩]
        rw [hV, hV2]
        have hPh : decide (rscore nq h = qmax (t.map (rscore nq))) = false := by
          simp [hqt.ne]
        rw [List.findIdx_cons, hPh]
        simp only [cond_false]
        congr 1
        omega
      · push_neg at hex2
        have hqt : qmax (t.map (rscore nq)) ≤ rscore nq h := by
          apply qmax_le _ (rscore_nonneg nq h)
          intro a ha
          obtain ⟨g, hg, rfl⟩ := List.mem_map.mp ha
          exact hex2 g hg
        have hV2 : max (rscore nq h) (qmax (t.map (rscore nq))) = rscore nq h :=
          max_eq_left hqt
        simp only [fuzzyPass, if_pos hbs]
        rw [fuzzyPass_keep nq t (i + 1) (rscore nq h) (Int.ofNat i)
          (fun g hg => le_trans (hex2 g hg) le_rfl)]
        rw [hV, hV2]
        have hPh : decide (rscore nq h = rscore nq h) = true := by simp
        rw [List.findIdx_cons, hPh]
        simp only [cond_true]
        simp
    · have hr : rscore nq h ≤ b := not_lt.mp hbs
      obtain ⟨g, hg, hgt⟩ := hex
      have hgne : g ∈ t := by
        rcases List.mem_cons.mp hg with rfl | hgt2
        · exact absurd hgt hbs
        · exact hgt2
      have hV : max b (qmax ((h :: t).map (rscore nq))) = max b (qmax (t.map (rscore nq))) := by
        simp only [List.map_cons, qmax]
        rw [max_left_comm]
        exact max_eq_right (le_trans hr (le_max_left _ _))
      have hbq : b < max b (qmax (t.map (rscore nq))) := by
        have : b < qmax (t.map (rscore nq)) :=
          lt_of_lt_of_le hgt (le_qmax_of_mem (List.mem_map_of_mem _ hgne))
        exact lt_max_of_lt_right this
      simp only [fuzzyPass, if_neg hbs]
      rw [ih (i + 1) b x hb ⟨g, hgne, hgt⟩]
      rw [hV]
      have hPh : decide (rscore nq h = max b (qmax (t.map (rscore nq)))) = false := by
        simp only [decide_eq_false_iff_not]
        exact ne_of_lt (lt_of_le_of_lt hr hbq)
      rw [List.findIdx_cons, hPh]
      simp only [cond_false]
      congr 1
      omega

/-- C5: for every header list, keyword and cutoff, if the normalised keyword
is a substring of the normalised form of some header, `find_best_column`
returns the 1-based index of the first such header, regardless of the
cutoff. -/
theorem C5_substring_first_wins (K : String) (H : List String) (c : ℚ) (j : Nat)
    (hj : j < H.length)
    (hmatch : strContainsData (pynormD K) (pynormD (H.get ⟨j, hj⟩)) = true)
    (hfirst : ∀ k (hk : k < H.length), k < j →
      strContainsData (pynormD K) (pynormD (H.get ⟨k, hk⟩)) = false) :
    find_best_column K H c = Int.ofNat j + 1 := by
  have h := substrPass_at (pynormD K) H 0 j hj hmatch hfirst
  simp only [find_best_column, h]
  norm_num

/-- Witness for C5 at the specification's own scenario: keyword
"personal identifier" against `["Timestamp", "Personal Identifier:",
"Gender"]` resolves to column 2. -/
theorem C5_substring_first_wins_witness :
    find_best_column "personal identifier" ["Timestamp", "Personal Identifier:", "Gender"]
      (mkRat 3 5) = Int.ofNat 1 + 1 :=
  C5_substring_first_wins "personal identifier"
    ["Timestamp", "Personal Identifier:", "Gender"] (mkRat 3 5) 1
    (by decide) (by decide) (by decide)

/-- C6 counterexample: with keyword "a", headers `["b"]` and cutoff `0` there
is no substring match and the maximum ratioVal (0) reaches the cutoff, so the
claim demands the first maximiser's 1-based index 1; the code returns
`best_idx + 1 = 0` because no score was ever strictly positive and `best_idx`
is still `-1`. -/
theorem C6_zero_cutoff_cex :
    (∀ h ∈ (["b"] : List String), strContainsData (pynormD "a") (pynormD h) = false) ∧
    maxRatioSpec (pynormD "a") ["b"] = 0 ∧
    ((0 : ℚ) ≤ maxRatioSpec (pynormD "a") ["b"]) ∧
    List.findIdx (fun h => decide (rscore (pynormD "a") h = maxRatioSpec (pynormD "a") ["b"]))
      ["b"] = 0 ∧
    find_best_column "a" ["b"] 0 = 0 ∧
    (0 : Int) ≠ Int.ofNat 0 + 1 := by
  refine ⟨?_, ?_, ?_, ?_, ?_, ?_⟩ <;> decide

/-- C6 amended: for a strictly positive cutoff and no substring match,
`find_best_column` returns `-1` exactly when the maximum ratioVal is below the
cutoff, and otherwise the 1-based index of the first header attaining the
maximum ratioVal. -/
theorem C6_fuzzy_threshold (K : String) (H : List String) (c : ℚ)
    (hc : 0 < c)
    (hsub : ∀ h ∈ H, strContainsData (pynormD K) (pynormD h) = false) :
    (find_best_column K H c = -1 ↔ maxRatioSpec (pynormD K) H < c) ∧
    (c ≤ maxRatioSpec (pynormD K) H →
      find_best_column K H c =
        Int.ofNat (List.findIdx
          (fun h => decide (rscore (pynormD K) h = maxRatioSpec (pynormD K) H)) H) + 1) := by
  have hnone := substrPass_none (pynormD K) H 0 hsub
  have hbest : (fuzzyPass (pynormD K) H 0 0 (-1)).1 = maxRatioSpec (pynormD K) H := by
    rw [fuzzyPass_best (pynormD K) H 0 0 (-1) le_rfl]
    exact max_eq_right (qmax_nonneg _)
  have hfb : find_best_column K H c =
      (if c ≤ (fuzzyPass (pynormD K) H 0 0 (-1)).1
       then (fuzzyPass (pynormD K) H 0 0 (-1)).2 + 1 else -1) := by
    simp only [find_best_column, hnone]
  by_cases hle : c ≤ maxRatioSpec (pynormD K) H
  · have hpos : 0 < maxRatioSpec (pynormD K) H := lt_of_lt_of_le hc hle
    obtain ⟨a, ha, hqa⟩ := exists_ge_qmax_of_pos (l := H.map (rscore (pynormD K))) hpos
    obtain ⟨g, hg, rfl⟩ := List.mem_map.mp ha
    have hex : ∃ h ∈ H, (0 : ℚ) < rscore (pynormD K) h := ⟨g, hg, lt_of_lt_of_le hpos hqa⟩
    have harg := fuzzyPass_argmax (pynormD K) H 0 0 (-1) le_rfl hex
    have hmax0 : max (0 : ℚ) (qmax (H.map (rscore (pynormD K)))) = maxRatioSpec (pynormD K) H :=
      max_eq_right (qmax_nonneg _)
    rw [hmax0] at harg
    rw [hfb, if_pos (by rw [hbest]; exact hle), harg]
    constructor
    · constructor
      · intro habs
        exfalso
        simp only [Int.ofNat_eq_coe] at habs
        omega
      · intro hlt
        exact absurd hlt (not_lt.mpr hle)
    · intro _
      norm_num
  · rw [hfb, if_neg (by rw [hbest]; exact hle)]
    exact ⟨⟨fun _ => lt_of_not_le hle, fun _ => rfl⟩, fun hcon => absurd hcon hle⟩

/-- Witness for C6 (amended): keyword "ab" against `["xy"]` at cutoff `1/2`
has no substring match and maximum ratioVal 0, so the resolver answers `-1`. -/
theorem C6_fuzzy_threshold_witness :
    (find_best_column "ab" ["xy"] (mkRat 1 2) = -1 ↔
      maxRatioSpec (pynormD "ab") ["xy"] < mkRat 1 2) ∧
    (mkRat 1 2 ≤ maxRatioSpec (pynormD "ab") ["xy"] →
      find_best_column "ab" ["xy"] (mkRat 1 2) =
        Int.ofNat (List.findIdx
          (fun h => decide (rscore (pynormD "ab") h = maxRatioSpec (pynormD "ab") ["xy"]))
          ["xy"]) + 1) :=
  C6_fuzzy_threshold "ab" ["xy"] (mkRat 1 2) (by decide) (by decide)

/-- A successful membership scan implies the first-occurrence index is inside
the list. -/
lemma pyListIndex_lt_of_mem : ∀ (l : List String) (x : String),
    pyMem x l = true → pyListIndex x l < l.length := by
  intro l
  induction l with
  | nil => intro x h; simp [pyMem] at h
  | cons y t ih =>
    intro x h
    by_cases hy : y = x
    · simp [pyListIndex, hy]
    · simp only [pyMem, Bool.or_eq_true, decide_eq_true_eq] at h
      rcases h with h | h
      · exact absurd h hy
      · simp only [pyListIndex, hy, if_false, List.length_cons]
        exact Nat.succ_lt_succ (ih x h)

/-- `pyIndex` succeeds on any index that `getElem?` answers. -/
lemma pyIndex_ok_of_getElem? {α : Type} (l : List α) (i : Nat) (x : α)
    (h : l[i]? = some x) : pyIndex l (Int.ofNat i) = .ok x := by
  have hi : i < l.length := by
    by_contra hcon
    rw [List.getElem?_eq_none (Nat.le_of_not_lt hcon)] at h
    cases h
  rw [pyIndex_ofNat_ok l i hi]
  rw [List.getElem?_eq_getElem hi] at h
  cases h
  rfl

/-- C9: the sanitizer keeps length, rewrites each position independently
(order-preserving), and is idempotent. -/
theorem C9_sanitize_shape (xs : List String) :
    (filter_responses xs).length = xs.length ∧
    (∀ i : Nat, (filter_responses xs)[i]? = (xs[i]?).map filterResponse) ∧
    filter_responses (filter_responses xs) = filter_responses xs := by
  refine ⟨?_, ?_, ?_⟩
  · rw [filter_responses_eq_map]
    simp
  · intro i
    rw [filter_responses_eq_map]
    simp
  · rw [filter_responses_eq_map, filter_responses_eq_map, List.map_map]
    apply List.map_congr_left
    intro r _
    exact filterResponse_idem r

/-- C10: a response containing both `:` and `/` is sanitised to a single
space, and the encoder maps that to the empty-string code, for every
environment and sibling list. -/
theorem C10_timestamp_blanked (env : Env) (rs : List String) (s : String)
    (h : s.data.contains ':' = true ∧ s.data.contains '/' = true) :
    response_to_number_helper env (some (filterResponse s)) rs = .ok (.str "") := by
  have hf : filterResponse s = " " := by
    unfold filterResponse
    rw [if_pos (by rw [h.1, h.2]; rfl)]
  rw [hf]
  rfl

/-- Witness for C10 at the specification's timestamp scenario. -/
theorem C10_timestamp_blanked_witness :
    response_to_number_helper envNoQuestions (some (filterResponse "3/14/2023 10:00:00")) [] =
      .ok (.str "") :=
  C10_timestamp_blanked envNoQuestions [] "3/14/2023 10:00:00" ⟨by decide, by decide⟩

/-- C8: vocabulary lookups are case- and outer-whitespace-insensitive:
`"  Yes "` and `"yes"` both encode to 1 whatever the sibling list, and more
generally the encoder's answer depends on its input only through
lower-casing followed by stripping. -/
theorem C8_case_whitespace_insensitive :
    (∀ (env : Env) (rs : List String),
      response_to_number_helper env (some "  Yes ") rs = .ok (.int 1) ∧
      response_to_number_helper env (some "yes") rs = .ok (.int 1)) ∧
    (∀ (env : Env) (s t : String) (rs : List String),
      pystrip (pylower s) = pystrip (pylower t) →
      response_to_number_helper env (some s) rs = response_to_number_helper env (some t) rs) := by
  constructor
  · intro env rs
    exact ⟨rfl, rfl⟩
  · intro env s t rs h
    simp only [response_to_number_helper]
    rw [h]

/-- Witness for C8: the insensitivity instance for `"  Yes "` / `"yes"`. -/
theorem C8_case_whitespace_insensitive_witness :
    response_to_number_helper envNoQuestions (some "  Yes ") [] =
      response_to_number_helper envNoQuestions (some "yes") [] :=
  C8_case_whitespace_insensitive.2 envNoQuestions "  Yes " "yes" [] (by decide)

/-- C1 (code bug): in a dataset whose only pre-survey row is shorter than the
resolved column, the identifier is found in row 1 and question "Q1" resolves
to column 2, yet `compile_pre_response` faults (`IndexError`) instead of
producing the empty string required by the specification. -/
theorem C1_short_row_raises :
    find_pre_row_by_id envShortRow "ab" = 1 ∧
    find_pre_column envShortRow "Q1" = 2 ∧
    (envShortRow.pre_values[0]?.map List.length) = some 1 ∧
    compile_pre_response envShortRow 1 "Q1" = .error () := by
  exact ⟨by decide, by decide, by decide, by decide⟩

/-- C4 counterexample: with an empty question list, encoding the unknown text
"zzz" against the sibling list `["zzz"]` raises (`questions[0]` faults)
instead of returning a value, so the encoder is not total over arbitrary
sibling lists. -/
theorem C4_encoder_raises_cex :
    response_to_number_helper envNoQuestions (some "zzz") ["zzz"] = .error () ∧
    ¬ ∃ v, response_to_number_helper envNoQuestions (some "zzz") ["zzz"] = .ok v := by
  refine ⟨by decide, ?_⟩
  rintro ⟨v, hv⟩
  rw [show response_to_number_helper envNoQuestions (some "zzz") ["zzz"] = .error () from
    by decide] at hv
  cases hv

/-- C4 amended: whenever the sibling list is no longer than the question list
(always true for lists produced by `compile_responses`), the encoder returns
a value, and that value is an integer, the empty string, the sentinel
`"ERROR"`, or the lower-cased stripped free text itself. -/
theorem C4_encoder_total (env : Env) (resp : String) (rs : List String)
    (hlen : rs.length ≤ env.questions.length) :
    ∃ v, response_to_number_helper env (some resp) rs = .ok v ∧
      (v = .str "" ∨ v = .str "ERROR" ∨ (∃ n, v = .int n) ∨
        v = .str (pystrip (pylower resp))) := by
  cases hv : vocabLookup (pystrip (pylower resp)) with
  | some n =>
    refine ⟨.int n, ?_, Or.inr (Or.inr (Or.inl ⟨n, rfl⟩))⟩
    simp only [response_to_number_helper, hv]
  | none =>
    by_cases hemp : pystrip (pylower resp) = "" ∨ pystrip (pylower resp) = " "
    · refine ⟨.str "", ?_, Or.inl rfl⟩
      simp only [response_to_number_helper, hv]
      rw [if_pos hemp]
    · by_cases hmem : pyMem (pystrip (pylower resp)) (rs.map pylower) = true
      · have hidx : pyListIndex (pystrip (pylower resp)) (rs.map pylower) <
            env.questions.length := by
          have h1 := pyListIndex_lt_of_mem _ _ hmem
          rw [List.length_map] at h1
          omega
        have hq : pyIndex env.questions
            (Int.ofNat (pyListIndex (pystrip (pylower resp)) (rs.map pylower))) =
            .ok (env.questions.get ⟨_, hidx⟩) := pyIndex_ofNat_ok _ _ hidx
        by_cases hph : strContains "write one word"
            (pylower (env.questions.get ⟨_, hidx⟩)) = true
        · refine ⟨.str (pystrip (pylower resp)), ?_, Or.inr (Or.inr (Or.inr rfl))⟩
          simp only [response_to_number_helper, hv]
          rw [if_neg hemp, if_pos hmem]
          simp only [hq]
          rw [if_pos hph]
        · refine ⟨.str "ERROR", ?_, Or.inr (Or.inl rfl)⟩
          simp only [response_to_number_helper, hv]
          rw [if_neg hemp, if_pos hmem]
          simp only [hq]
          rw [if_neg hph]
      · refine ⟨.str "ERROR", ?_, Or.inr (Or.inl rfl)⟩
        simp only [response_to_number_helper, hv]
        rw [if_neg hemp, if_neg hmem]

/-- Witness for C4 (amended): encoding "hello" against a one-question
environment returns a value in the stated range. -/
theorem C4_encoder_total_witness :
    ∃ v, response_to_number_helper envResilience (some "hello") ["hello"] = .ok v ∧
      (v = .str "" ∨ v = .str "ERROR" ∨ (∃ n, v = .int n) ∨
        v = .str (pystrip (pylower "hello"))) :=
  C4_encoder_total envResilience "hello" ["hello"] (by decide)

/-- C7 counterexample: the text "x" is absent from the vocabulary and
non-empty, and SOME matching position (position 1) belongs to a
"write one word" question, yet the encoder answers `"ERROR"`, because it only
consults the question of the FIRST matching position (position 0). -/
theorem C7_some_position_cex :
    vocabLookup (pystrip (pylower "x")) = none ∧
    pystrip (pylower "x") ≠ "" ∧
    (∃ i, ∃ hi : i < (["x", "x"] : List String).length,
      pylower ((["x", "x"] : List String).get ⟨i, hi⟩) = pystrip (pylower "x") ∧
      ∃ q, envTwoX.questions[i]? = some q ∧
        strContains "write one word" (pylower q) = true) ∧
    response_to_number_helper envTwoX (some "x") ["x", "x"] = .ok (.str "ERROR") ∧
    PyVal.str "ERROR" ≠ PyVal.str (pystrip (pylower "x")) := by
  refine ⟨by decide, by decide,
    ⟨1, by decide, by decide, "Write one word", by decide, by decide⟩, by decide, by decide⟩

/-- C7 amended: if the normalised text is absent from the vocabulary and
non-empty, occurs among the lower-cased sibling responses, and the question
at the FIRST matching position exists and contains "write one word", the
encoder echoes the normalised text. -/
theorem C7_free_text_first_match (env : Env) (resp : String) (rs : List String) (q : String)
    (hv : vocabLookup (pystrip (pylower resp)) = none)
    (hne : pystrip (pylower resp) ≠ "")
    (hmem : pyMem (pystrip (pylower resp)) (rs.map pylower) = true)
    (hq : env.questions[pyListIndex (pystrip (pylower resp)) (rs.map pylower)]? = some q)
    (hph : strContains "write one word" (pylower q) = true) :
    response_to_number_helper env (some resp) rs = .ok (.str (pystrip (pylower resp))) := by
  have hnsp : pystrip (pylower resp) ≠ " " := pystrip_ne_space _
  simp only [response_to_number_helper, hv]
  rw [if_neg (by rintro (h | h); exacts [hne h, hnsp h]), if_pos hmem]
  simp only [pyIndex_ok_of_getElem? _ _ _ hq]
  rw [if_pos hph]

/-- Witness for C7 (amended) at the specification's "resilience" scenario. -/
theorem C7_free_text_first_match_witness :
    response_to_number_helper envResilience (some "resilience") ["resilience"] =
      .ok (.str "resilience") :=
  C7_free_text_first_match envResilience "resilience" ["resilience"]
    "Please write one word:" (by decide) (by decide) (by decide) (by decide) (by decide)

/-- Take preserves early `getElem?` answers. -/
lemma getElem?_take_lt {α : Type} :
    ∀ (l : List α) (n i : Nat), i < n → (l.take n)[i]? = l[i]? := by
  intro l
  induction l with
  | nil => intro n i _; simp
  | cons a t ih =>
    intro n i hin
    cases n with
    | zero => omega
    | succ n =>
      cases i with
      | zero => simp [List.take_succ_cons]
      | succ i =>
        simp only [List.take_succ_cons, List.getElem?_cons_succ]
        exact ih n i (by omega)

/-- An answered `getElem?` position is a member. -/
lemma mem_of_getElem?_eq {α : Type} :
    ∀ (l : List α) (i : Nat) (x : α), l[i]? = some x → x ∈ l := by
  intro l
  induction l with
  | nil => intro i x h; simp at h
  | cons a t ih =>
    intro i x h
    cases i with
    | zero =>
      simp only [List.getElem?_cons_zero, Option.some_inj] at h
      simp [h]
    | succ i =>
      simp only [List.getElem?_cons_succ] at h
      exact List.mem_cons_of_mem a (ih i x h)

/-- An element of a prefix has its first Python index inside that prefix. -/
lemma pyListIndex_lt_of_mem_take :
    ∀ (l : List String) (n : Nat) (q : String), q ∈ l.take n → pyListIndex q l < n := by
  intro l
  induction l with
  | nil => intro n q h; simp at h
  | cons y t ih =>
    intro n q h
    cases n with
    | zero => simp at h
    | succ n =>
      rw [List.take_succ_cons] at h
      by_cases hy : y = q
      · simp [pyListIndex, hy]
      · rcases List.mem_cons.mp h with rfl | h2
        · exact absurd rfl hy
        · simp only [pyListIndex, hy, if_false]
          exact Nat.succ_lt_succ (ih n q h2)

/-- An element outside a prefix has its first Python index past that prefix. -/
lemma pyListIndex_ge_of_notin_take :
    ∀ (l : List String) (n : Nat) (x : String), x ∉ l.take n → x ∈ l →
      n ≤ pyListIndex x l := by
  intro l
  induction l with
  | nil => intro n x _ hmem; simp at hmem
  | cons y t ih =>
    intro n x hnot hmem
    cases n with
    | zero => omega
    | succ n =>
      rw [List.take_succ_cons] at hnot
      have hxy : ¬ y = x := by
        intro h
        exact hnot (by simp [h])
      have hxt : x ∈ t := by
        rcases List.mem_cons.mp hmem with rfl | h2
        · exact absurd rfl hxy
        · exact h2
      have hnt : x ∉ t.take n := fun h => hnot (List.mem_cons_of_mem _ h)
      simp only [pyListIndex, hxy, if_false]
      exact Nat.succ_le_succ (ih n x hnt hxt)

/-- A pre-survey compile with row `-1` is the sentinel, whatever the column
resolution does. -/
lemma compile_pre_response_neg_row (env : Env) (q : String) :
    compile_pre_response env (-1) q = .ok "ERROR" := by
  unfold compile_pre_response
  rw [if_pos (Or.inr rfl)]

/-- Entry-wise description of the compile loop: position `i` of a successful
run is the pre- or post-survey compile of question `i`, the source chosen by
whether some question among the first `i + 1` has first occurrence at index
36 or beyond (or the incoming trigger was already set). -/
lemma compileLoop_getElem (env : Env) (a b : Int) :
    ∀ (l : List String) (trig : Bool) (out : List String),
      compileLoop env a b l trig = .ok out →
      out.length = l.length ∧
      ∀ i v, out[i]? = some v →
        ∃ q, l[i]? = some q ∧
          (if trig || ((l.take (i + 1)).any
              (fun g => decide (36 ≤ pyListIndex g env.questions)))
           then compile_post_response env b q
           else compile_pre_response env a q) = .ok v := by
  intro l
  induction l with
  | nil =>
    intro trig out h
    simp only [compileLoop] at h
    cases h
    exact ⟨rfl, by intro i v hv; simp at hv⟩
  | cons q rest ih =>
    intro trig out h
    simp only [compileLoop] at h
    cases hstep : (if trig || decide (36 ≤ pyListIndex q env.questions)
        then compile_post_response env b q else compile_pre_response env a q) with
    | error e => rw [hstep] at h; simp at h
    | ok v0 =>
      rw [hstep] at h
      cases hrec : compileLoop env a b rest
          (trig || decide (36 ≤ pyListIndex q env.questions)) with
      | error e => rw [hrec] at h; simp at h
      | ok t =>
        rw [hrec] at h
        injection h with h
        subst h
        obtain ⟨hlen, hget⟩ := ih (trig || decide (36 ≤ pyListIndex q env.questions)) t hrec
        constructor
        · simp [hlen]
        · intro i v hv
          cases i with
          | zero =>
            simp only [List.getElem?_cons_zero, Option.some_inj] at hv
            subst hv
            refine ⟨q, by simp, ?_⟩
            have hcond : (trig || (((q :: rest).take (0 + 1)).any
                (fun g => decide (36 ≤ pyListIndex g env.questions)))) =
                (trig || decide (36 ≤ pyListIndex q env.questions)) := by
              simp
            rw [hcond]
            exact hstep
          | succ i =>
            simp only [List.getElem?_cons_succ] at hv
            obtain ⟨g, hg, hbr⟩ := hget i v hv
            refine ⟨g, by simpa using hg, ?_⟩
            have hcond : (trig || (((q :: rest).take (i + 1 + 1)).any
                (fun g => decide (36 ≤ pyListIndex g env.questions)))) =
                ((trig || decide (36 ≤ pyListIndex q env.questions)) ||
                  ((rest.take (i + 1)).any
                    (fun g => decide (36 ≤ pyListIndex g env.questions)))) := by
              rw [List.take_succ_cons, List.any_cons, Bool.or_assoc]
            rw [hcond]
            exact hbr

/-- Before position 36 the trigger is still unset: every question seen so far
has its first occurrence at its own position or earlier. -/
lemma trigger_false_before_36 (env : Env) (i : Nat) (hi : i < 36) :
    ((env.questions.take (i + 1)).any
      (fun g => decide (36 ≤ pyListIndex g env.questions))) = false := by
  rw [List.any_eq_false]
  intro g hg
  simp only [decide_eq_true_eq, not_le]
  exact lt_of_lt_of_le (pyListIndex_lt_of_mem_take _ _ _ hg) (by omega)

/-- From position 36 on the trigger is set, provided the question at position
36 does not also occur earlier. -/
lemma trigger_true_from_36 (env : Env) (i : Nat) (x : String)
    (hi : 36 ≤ i)
    (hx : env.questions[36]? = some x)
    (hnd : x ∉ env.questions.take 36) :
    ((env.questions.take (i + 1)).any
      (fun g => decide (36 ≤ pyListIndex g env.questions))) = true := by
  rw [List.any_eq_true]
  refine ⟨x, ?_, ?_⟩
  · apply mem_of_getElem?_eq _ 36
    rw [getElem?_take_lt _ _ _ (by omega)]
    exact hx
  · simp only [decide_eq_true_eq]
    exact pyListIndex_ge_of_notin_take _ _ _ hnd (mem_of_getElem?_eq _ _ _ hx)

/-- A successful `compile_responses` entry is the sanitised pre- or
post-survey compile of the question at the same position, selected by the
trigger state at that position. -/
lemma compile_responses_entry (env : Env) (identifier : String) (rs : List String)
    (i : Nat) (v : String)
    (hok : compile_responses env identifier = .ok rs)
    (hv : rs[i]? = some v) :
    ∃ w q, env.questions[i]? = some q ∧ filterResponse w = v ∧
      (if ((env.questions.take (i + 1)).any
          (fun g => decide (36 ≤ pyListIndex g env.questions)))
       then compile_post_response env (find_post_row_by_id env identifier) q
       else compile_pre_response env (find_pre_row_by_id env identifier) q) = .ok w := by
  unfold compile_responses at hok
  cases hcl : compileLoop env (find_pre_row_by_id env identifier)
      (find_post_row_by_id env identifier) env.questions false with
  | error e => rw [hcl] at hok; simp at hok
  | ok out =>
    rw [hcl] at hok
    injection hok with hok
    subst hok
    rw [filter_responses_eq_map] at hv
    simp only [List.getElem?_map] at hv
    cases hw : out[i]? with
    | none => rw [hw] at hv; simp at hv
    | some w =>
      rw [hw] at hv
      simp only [Option.map_some', Option.some_inj] at hv
      obtain ⟨g, hg, hbr⟩ :=
        (compileLoop_getElem env _ _ env.questions false out hcl).2 i w hw
      rw [Bool.false_or] at hbr
      exact ⟨w, g, hg, hv, hbr⟩

/-- C3 counterexample: in `envDup` the question at position 36 repeats the
first question, so position 36 of the compiled sequence is the pre-survey
answer "P0", while reading it from the post-survey row (as the claim demands
for positions at or past the boundary) yields "Q0". -/
theorem C3_boundary_switch_cex :
    envDup.questions[36]? = some "q0" ∧
    (compile_responses envDup "ab").toOption.bind (fun l => l[36]?) = some "P0" ∧
    Except.map filterResponse
      (compile_post_response envDup (find_post_row_by_id envDup "ab") "q0") = .ok "Q0" ∧
    ("P0" : String) ≠ "Q0" := by
  exact ⟨by decide, by decide, by decide, by decide⟩

/-- C3 amended: position `i` of a successful compile is read from the
pre-survey row whenever `i < 36`, and from the post-survey row whenever
`36 ≤ i` provided the question at position 36 does not also occur among the
first 36 questions (with a boundary-crossing duplicate the trigger can stay
unset and the pre-survey row is consulted instead). -/
theorem C3_boundary_switch (env : Env) (identifier : String) (rs : List String)
    (i : Nat) (q v : String)
    (hok : compile_responses env identifier = .ok rs)
    (hq : env.questions[i]? = some q)
    (hv : rs[i]? = some v) :
    (i < 36 →
      Except.map filterResponse
        (compile_pre_response env (find_pre_row_by_id env identifier) q) = .ok v) ∧
    (36 ≤ i →
      (∀ x, env.questions[36]? = some x → x ∉ env.questions.take 36) →
      Except.map filterResponse
        (compile_post_response env (find_post_row_by_id env identifier) q) = .ok v) := by
  obtain ⟨w, q', hq', hfw, hbr⟩ := compile_responses_entry env identifier rs i v hok hv
  rw [hq] at hq'
  injection hq' with hq'
  subst hq'
  constructor
  · intro h36
    rw [trigger_false_before_36 env i h36] at hbr
    simp only [Bool.false_eq_true, if_false] at hbr
    rw [hbr]
    simp [Except.map, hfw]
  · intro h36 hnd
    have hilen : i < env.questions.length := by
      by_contra hcon
      rw [List.getElem?_eq_none (Nat.le_of_not_lt hcon)] at hq
      cases hq
    have hx : env.questions[36]? = some (env.questions[36]) :=
      List.getElem?_eq_getElem (by omega)
    rw [trigger_true_from_36 env i _ h36 hx (hnd _ hx)] at hbr
    simp only [if_true] at hbr
    rw [hbr]
    simp [Except.map, hfw]

/-- Witness for C3 (amended): the single pre-boundary question of
`envOneQuestion` is read from the pre-survey row. -/
theorem C3_boundary_switch_witness :
    (0 < 36 →
      Except.map filterResponse
        (compile_pre_response envOneQuestion (find_pre_row_by_id envOneQuestion "ab") "A") =
        .ok "ans") ∧
    (36 ≤ 0 →
      (∀ x, envOneQuestion.questions[36]? = some x → x ∉ envOneQuestion.questions.take 36) →
      Except.map filterResponse
        (compile_post_response envOneQuestion (find_post_row_by_id envOneQuestion "ab") "A") =
        .ok "ans") :=
  C3_boundary_switch envOneQuestion "ab" ["ans"] 0 "A" "ans"
    (by decide) (by decide) (by decide)

/-- Encoding the sentinel when it heads the response list: the free-text
fallback looks at the FIRST question, so if that question is not a
"write one word" question the sentinel survives encoding. -/
lemma encode_error_head (env : Env) (t : List String) (q0 : String)
    (hq0 : env.questions[0]? = some q0)
    (hph : strContains "write one word" (pylower q0) = false) :
    response_to_number_helper env (some "ERROR") ("ERROR" :: t) = .ok (.str "ERROR") := by
  have h1 : pystrip (pylower "ERROR") = "error" := by decide
  have h2 : vocabLookup "error" = none := by decide
  have hlow : pylower "ERROR" = "error" := by decide
  simp only [response_to_number_helper, h1, h2]
  rw [if_neg (by decide : ¬(("error" : String) = "" ∨ ("error" : String) = " "))]
  have h3 : pyMem "error" ((("ERROR" : String) :: t).map pylower) = true := by
    simp only [List.map_cons, hlow]
    simp [pyMem]
  rw [if_pos h3]
  have h4 : pyListIndex "error" ((("ERROR" : String) :: t).map pylower) = 0 := by
    simp only [List.map_cons, hlow]
    simp [pyListIndex]
  rw [h4]
  simp only [pyIndex_ok_of_getElem? _ _ _ hq0]
  rw [if_neg (by simp [hph])]

/-- C2 counterexample: the identifier "zz" is absent from
`envWriteOneWord`'s pre-survey, its single (pre-boundary) question contains
"write one word", and the pipeline encodes the position to the lower-case
text "error", not the sentinel "ERROR". -/
theorem C2_unmatched_prerow_cex :
    find_pre_row_by_id envWriteOneWord "zz" = -1 ∧
    compile_responses envWriteOneWord "zz" = .ok ["ERROR"] ∧
    response_to_number envWriteOneWord ["ERROR"] = .ok [.str "error"] ∧
    PyVal.str "error" ≠ PyVal.str "ERROR" := by
  exact ⟨by decide, by decide, by decide, by decide⟩

/-- C2 amended: for an identifier absent from the pre-survey, every position
of a successful compile before the boundary 36 holds the raw sentinel
"ERROR", and — provided the first question's text does not contain
"write one word" — each such position also encodes to the sentinel `ERROR`
(when it does contain that phrase, those positions encode to the lower-cased
text "error" instead, as the counterexample shows). -/
theorem C2_unmatched_prerow (env : Env) (identifier : String) (rs : List String) (q0 : String)
    (hpre : find_pre_row_by_id env identifier = -1)
    (hok : compile_responses env identifier = .ok rs)
    (hq0 : env.questions[0]? = some q0)
    (hph : strContains "write one word" (pylower q0) = false) :
    ∀ i v, i < 36 → rs[i]? = some v →
      v = "ERROR" ∧ response_to_number_helper env (some v) rs = .ok (.str "ERROR") := by
  have hraw : ∀ j v', j < 36 → rs[j]? = some v' → v' = "ERROR" := by
    intro j v' hj hv'
    obtain ⟨w, q', hq', hfw, hbr⟩ := compile_responses_entry env identifier rs j v' hok hv'
    rw [trigger_false_before_36 env j hj] at hbr
    simp only [Bool.false_eq_true, if_false] at hbr
    rw [hpre, compile_pre_response_neg_row] at hbr
    injection hbr with hbr
    rw [← hfw, ← hbr]
    decide
  intro i v hi hv
  have hvE := hraw i v hi hv
  subst hvE
  refine ⟨rfl, ?_⟩
  have hlen : i < rs.length := by
    by_contra hcon
    rw [List.getElem?_eq_none (Nat.le_of_not_lt hcon)] at hv
    cases hv
  cases rs with
  | nil => simp at hlen
  | cons r t =>
    have hr : r = "ERROR" := hraw 0 r (by omega) (by simp)
    subst hr
    exact encode_error_head env t q0 hq0 hph

/-- Witness for C2 (amended): in `envOneQuestionNoRow` the absent identifier
"zz" compiles to `["ERROR"]` and position 0 encodes to the sentinel. -/
theorem C2_unmatched_prerow_witness :
    ("ERROR" : String) = "ERROR" ∧
    response_to_number_helper envOneQuestionNoRow (some "ERROR") ["ERROR"] =
      .ok (.str "ERROR") :=
  C2_unmatched_prerow envOneQuestionNoRow "zz" ["ERROR"] "Qx"
    (by decide) (by decide) (by decide) (by decide) 0 "ERROR" (by omega) (by decide)
